import Mathlib

/-!
# Verification of the context-window ingestion-and-retrieval pipeline

Shallow embedding of the core of the `context-window` TypeScript library:
the chunker (`src/util/chunker.ts`), the fingerprinter (`src/util/hash.ts`,
SHA-1 over UTF-8 bytes), the ingestion orchestrator (`src/io/ingest.ts`),
the context packer and retrieval orchestrator (`src/core/ContextWindow.ts`)
and the window registry (`src/core/registry.ts`).

Strings are modelled as `List Char`; JavaScript's UTF-16 `length`/`slice`
are modelled as character counts, which agrees with it on all inputs
without astral-plane characters. Stateful/async code is modelled by
explicit effect traces; fallible collaborator calls are `Except` values
supplied by an explicit "world" record.
-/

set_option maxRecDepth 100000

/-- Text, modelled as a list of characters. -/
abbrev Str := List Char

/-- The character class of JavaScript's `\s` regular-expression escape
(WhiteSpace plus LineTerminator productions). -/
def isJsWs (c : Char) : Bool :=
  let n := c.toNat
  n = 0x20 || n = 0x09 || n = 0x0a || n = 0x0d || n = 0x0b || n = 0x0c ||
  n = 0xa0 || n = 0x1680 || (0x2000 ≤ n && n ≤ 0x200a) ||
  n = 0x2028 || n = 0x2029 || n = 0x202f || n = 0x205f || n = 0x3000 || n = 0xfeff

/-- Worker for `collapseWs`: the flag records whether the previous character
was whitespace (so the current run has already emitted its single space). -/
def collapseWsAux : Bool → Str → Str
  | _, [] => []
  | prevWs, c :: rest =>
    if isJsWs c then
      if prevWs then collapseWsAux true rest
      else ' ' :: collapseWsAux true rest
    else c :: collapseWsAux false rest

/-- JavaScript `s.replace(/\s+/g, " ")`: every maximal run of whitespace
characters becomes a single space. -/
def collapseWs (s : Str) : Str := collapseWsAux false s

/-- JavaScript `String.prototype.trim`: strip leading and trailing
whitespace (and line terminators). -/
def jsTrim (s : Str) : Str :=
  ((s.dropWhile isJsWs).reverse.dropWhile isJsWs).reverse

/-! ## Chunker (`src/util/chunker.ts`, `chunkText`)

The source's `while (start < text.length)` loop advances `start` by
`size - overlap` each iteration; with `overlap ≥ size` it never advances
and the JavaScript loop diverges. The embedding makes that partiality
explicit with a fuel parameter: `none` models divergence. `text.length`
units of fuel are enough whenever the loop terminates at all, since each
iteration that continues advances `start` by at least one. -/

/-- One iteration of the sliding-window loop of `chunkText`, fuelled.

```js
while (start < text.length) {
  const end = start + size;
  chunks.push(text.slice(start, end));
  if (end >= text.length) break;
  start += size - overlap;
}
``` -/
def chunkLoop (size overlap : Nat) (text : Str) : Nat → Nat → Option (List Str)
  | 0, _ => none
  | fuel + 1, start =>
    if text.length ≤ start then some []
    else
      let chunk := (text.drop start).take size
      if text.length ≤ start + size then some [chunk]
      else (chunkLoop size overlap text fuel (start + (size - overlap))).map (chunk :: ·)

/-- `chunkText(text, { size, overlap })`: split text into overlapping
sliding windows. `none` models the JavaScript loop diverging. -/
def chunkText (text : Str) (size overlap : Nat) : Option (List Str) :=
  if text.length = 0 then some []
  else if text.length ≤ size then some [text]
  else chunkLoop size overlap text text.length 0

/-! ## Context packer (`src/core/ContextWindow.ts`, `packContext`) -/

/-- A retrieval match's metadata as consumed by the packer. -/
structure MatchMeta where
  text : Str
  source : Str
deriving Repr, DecidableEq

/-- The packer's result: joined context text and deduplicated sources. -/
structure PackedContext where
  context : Str
  sources : List Str
deriving Repr, DecidableEq

/-- The fixed separator `"\n\n---\n\n"` used to join selected chunks. -/
def ctxSep : Str := '\n' :: '\n' :: '-' :: '-' :: '-' :: '\n' :: '\n' :: []

/-- The `for (const match of matches)` loop of `packContext`, carrying the
accumulated chunks, sources, seen-source set and running character total.
The `break` on overflow is the first `if`. -/
def packLoop (maxContextChars : Nat) :
    List MatchMeta → Nat → List Str → List Str → List Str → List Str × List Str
  | [], _, chunks, sources, _ => (chunks, sources)
  | m :: rest, totalChars, chunks, sources, seen =>
    if maxContextChars < totalChars + m.text.length then (chunks, sources)
    else
      packLoop maxContextChars rest (totalChars + m.text.length)
        (chunks ++ [m.text])
        (if seen.contains m.source then sources else sources ++ [m.source])
        (if seen.contains m.source then seen else seen ++ [m.source])

/-- The list of chunk texts `packContext` selects (before joining). -/
def packContextChunks (matchList : List MatchMeta) (maxContextChars : Nat) : List Str :=
  (packLoop maxContextChars matchList 0 [] [] []).1

/-- `packContext(matches, maxContextChars)`: select ranked matches under the
character budget and join them with the fixed separator, collecting unique
source labels in first-seen order. -/
def packContext (matchList : List MatchMeta) (maxContextChars : Nat) : PackedContext :=
  let r := packLoop maxContextChars matchList 0 [] [] []
  { context := (r.1.intersperse ctxSep).flatten, sources := r.2 }

/-! ## Fingerprinter (`src/util/hash.ts`, `stableHash`)

`stableHash` delegates to Node's `createHash("sha1").update(input, "utf8")
.digest("hex")`; the digest itself is implemented here: UTF-8 encoding,
SHA-1 (FIPS 180-4), and lowercase hex formatting. 32-bit words are `Nat`s
kept below `2^32` by explicit `% 2^32` where overflow matters. -/

/-- Split a list into consecutive pieces of `n` elements (the last may be
shorter), fuelled; `l.length` fuel suffices whenever `n ≥ 1`. -/
def chunksOfFuel (n : Nat) : Nat → List α → List (List α)
  | 0, _ => []
  | _ + 1, [] => []
  | fuel + 1, a :: rest =>
    (a :: rest).take n :: chunksOfFuel n fuel ((a :: rest).drop n)

/-- `l.slice(i, i + n)` batching: consecutive pieces of `n` elements. -/
def chunksOf (n : Nat) (l : List α) : List (List α) :=
  chunksOfFuel n l.length l

/-- UTF-8 encoding of one character (1–4 bytes). -/
def utf8Char (c : Char) : List Nat :=
  let n := c.toNat
  if n < 0x80 then [n]
  else if n < 0x800 then [0xc0 + n / 0x40, 0x80 + n % 0x40]
  else if n < 0x10000 then
    [0xe0 + n / 0x1000, 0x80 + n / 0x40 % 0x40, 0x80 + n % 0x40]
  else
    [0xf0 + n / 0x40000, 0x80 + n / 0x1000 % 0x40,
     0x80 + n / 0x40 % 0x40, 0x80 + n % 0x40]

/-- UTF-8 encoding of a string as a byte list. -/
def utf8Encode (s : Str) : List Nat := (s.map utf8Char).flatten

/-- Rotate a 32-bit word left by `n` bits. -/
def rotl (n x : Nat) : Nat :=
  ((x <<< n) % 4294967296) ||| (x >>> (32 - n))

/-- SHA-1 padding: append `0x80`, zero bytes to 56 mod 64, then the 64-bit
big-endian bit length. -/
def sha1Pad (msg : List Nat) : List Nat :=
  let bitLen := msg.length * 8
  let zeros := (64 - (msg.length + 9) % 64) % 64
  msg ++ 0x80 :: List.replicate zeros 0 ++
    [bitLen >>> 56 % 256, bitLen >>> 48 % 256, bitLen >>> 40 % 256,
     bitLen >>> 32 % 256, bitLen >>> 24 % 256, bitLen >>> 16 % 256,
     bitLen >>> 8 % 256, bitLen % 256]

/-- Big-endian 32-bit words from a byte list. -/
def bytesToWords : List Nat → List Nat
  | b0 :: b1 :: b2 :: b3 :: rest =>
    (((b0 * 256 + b1) * 256 + b2) * 256 + b3) :: bytesToWords rest
  | _ => []

/-- The four big-endian bytes of a 32-bit word. -/
def wordBytes (w : Nat) : List Nat :=
  [w >>> 24 % 256, w >>> 16 % 256, w >>> 8 % 256, w % 256]

/-- Extend the 16 message words of a block to the 80-word schedule:
`w[i] = rotl1 (w[i-3] xor w[i-8] xor w[i-14] xor w[i-16])`. -/
def sha1Schedule (w16 : List Nat) : List Nat :=
  (List.range 64).foldl
    (fun w _ =>
      let i := w.length
      w ++ [rotl 1 (w.getD (i - 3) 0 ^^^ w.getD (i - 8) 0 ^^^
                    w.getD (i - 14) 0 ^^^ w.getD (i - 16) 0)])
    w16

/-- The SHA-1 working state: five 32-bit words. -/
structure Sha1State where
  h0 : Nat
  h1 : Nat
  h2 : Nat
  h3 : Nat
  h4 : Nat
deriving Repr, DecidableEq

/-- SHA-1 initial state. -/
def sha1Init : Sha1State :=
  ⟨0x67452301, 0xEFCDAB89, 0x98BADCFE, 0x10325476, 0xC3D2E1F0⟩

/-- SHA-1 compression of one 64-byte block into the running state. -/
def sha1Block (h : Sha1State) (block : List Nat) : Sha1State :=
  let w := sha1Schedule (bytesToWords block)
  let s :=
    (List.range 80).foldl
      (fun (s : Sha1State) i =>
        let b := s.h1
        let c := s.h2
        let d := s.h3
        let f :=
          if i < 20 then (b &&& c) ||| ((4294967295 ^^^ b) &&& d)
          else if i < 40 then b ^^^ c ^^^ d
          else if i < 60 then (b &&& c) ||| (b &&& d) ||| (c &&& d)
          else b ^^^ c ^^^ d
        let k :=
          if i < 20 then 0x5A827999
          else if i < 40 then 0x6ED9EBA1
          else if i < 60 then 0x8F1BBCDC
          else 0xCA62C1D6
        let temp := (rotl 5 s.h0 + f + s.h4 + k + w.getD i 0) % 4294967296
        ⟨temp, s.h0, rotl 30 b, c, d⟩)
      h
  ⟨(h.h0 + s.h0) % 4294967296, (h.h1 + s.h1) % 4294967296,
   (h.h2 + s.h2) % 4294967296, (h.h3 + s.h3) % 4294967296,
   (h.h4 + s.h4) % 4294967296⟩

/-- SHA-1 digest (20 bytes) of a byte list. -/
def sha1Bytes (msg : List Nat) : List Nat :=
  let h := (chunksOf 64 (sha1Pad msg)).foldl sha1Block sha1Init
  wordBytes h.h0 ++ wordBytes h.h1 ++ wordBytes h.h2 ++
    wordBytes h.h3 ++ wordBytes h.h4

/-- The sixteen lowercase hexadecimal digits. -/
def hexDigits : Str := "0123456789abcdef".data

/-- Lowercase hexadecimal digit of a nibble, by table lookup. -/
def hexChar (n : Nat) : Char := hexDigits.getD n 'f'

/-- Two lowercase hex characters of one byte. -/
def byteHex (b : Nat) : Str := [hexChar (b / 16), hexChar (b % 16)]

/-- Lowercase hex rendering of a byte list. -/
def bytesHex (bs : List Nat) : Str := (bs.map byteHex).flatten

/-- `stableHash(input)`: the lowercase-hex SHA-1 digest of the UTF-8 bytes
of the input (`createHash("sha1").update(input, "utf8").digest("hex")`). -/
def stableHash (s : Str) : Str := bytesHex (sha1Bytes (utf8Encode s))

/-- Concrete run of the chunker, matching the sliding-window behaviour of
the source on a small input. -/
theorem chunkText_example :
    chunkText "abcdefgh".data 3 1 =
      some ["abc".data, "cde".data, "efg".data, "gh".data] := by
  decide

/-- Concrete run of the packer: the second match would overflow the
budget and is cut off. -/
theorem packContextChunks_example :
    packContextChunks [⟨"ab".data, "s".data⟩, ⟨"cd".data, "t".data⟩] 3 =
      ["ab".data] := by
  decide

/-- Concrete run of the trim model. -/
theorem jsTrim_example : jsTrim " a b ".data = "a b".data := by decide

/-- Concrete run of the whitespace-collapse model. -/
theorem collapseWs_example : collapseWs "a  \t b".data = "a b".data := by decide

/-! ## Ingestion (`src/io/ingest.ts`, `ingestPaths`) -/

/-- Decimal rendering of a number, as JavaScript template interpolation
does for a non-negative integer. -/
def natDecimal (n : Nat) : Str := (Nat.repr n).data

/-- The stable chunk id of `ingestPaths`:

```js
const preview = chunk.slice(0, 64).replace(/\s+/g, " ");
const id = stableHash(`${filepath}#${i}:${preview}`);
``` -/
def recordId (filepath : Str) (i : Nat) (chunk : Str) : Str :=
  stableHash (filepath ++ '#' :: natDecimal i ++ ':' :: collapseWs (chunk.take 64))

/-- `path.basename`: the final path segment. -/
def basename (p : Str) : Str := (p.reverse.takeWhile (· ≠ '/')).reverse

/-- Per-record metadata stored alongside the vector. -/
structure RecordMeta where
  text : Str
  source : Str
deriving Repr, DecidableEq

/-- A vector-store record. The vector value type `V` is abstract (the code
uses float arrays, which the claims never inspect); `values = none` models
the `values: []` placeholder before the embedding is assigned. -/
structure VectorRecord (V : Type) where
  id : Str
  values : Option V
  metadata : RecordMeta
deriving Repr, DecidableEq

/-- The records built for one file's chunk list (ids, placeholder values,
text and source metadata). -/
def fileRecords (V : Type) (filepath : Str) (chunks : List Str) : List (VectorRecord V) :=
  chunks.enum.map fun ic =>
    { id := recordId filepath ic.1 ic.2
      values := none
      metadata := { text := ic.2, source := basename filepath } }

/-- Observable collaborator invocations of the ingestion/creation pipeline. -/
inductive PipelineEffect (V : Type) where
  | extractCall (path : Str)
  | embedCall (texts : List Str)
  | upsertCall (records : List (VectorRecord V)) (ns : Str)
  | ensureIndexCall (dim : Nat)
deriving Repr, DecidableEq

/-- Whether an effect is an upsert-collaborator invocation. -/
def PipelineEffect.isUpsert : PipelineEffect V → Bool
  | .upsertCall _ _ => true
  | _ => false

/-- The external collaborators `ingestPaths` depends on: the filesystem
walk (`collectFiles`), text extraction (`readAsText`), the embedding
collaborator and the vector-store upsert. -/
structure IngestWorld (V : Type) where
  collectFiles : List Str → List Str
  readAsText : Str → Except Str Str
  embed : List Str → Except Str (List V)
  upsert : List (VectorRecord V) → Str → Except Str Unit

/-- The per-file record-building loop of `ingestPaths`: each file is read,
skipped (with a logged warning) when extraction fails or the text is blank,
and otherwise chunked and fingerprinted. `none` models the chunker
diverging. -/
def buildRecords (w : IngestWorld V) (chunkSize chunkOverlap : Nat) :
    List Str → Option (List (PipelineEffect V) × List (VectorRecord V))
  | [] => some ([], [])
  | f :: rest =>
    let fileStep : Option (List (VectorRecord V)) :=
      match w.readAsText f with
      | .error _ => some []
      | .ok text =>
        if jsTrim text = [] then some []
        else (chunkText text chunkSize chunkOverlap).map (fileRecords V f)
    match fileStep with
    | none => none
    | some recs =>
      match buildRecords w chunkSize chunkOverlap rest with
      | none => none
      | some (tr, recs2) => some (.extractCall f :: tr, recs ++ recs2)

/-- The batch-embedding loop of `ingestPaths`: one embedding call per batch
of 100 records, assigning returned vectors back by position; a failing
batch aborts the loop with a wrapped error. -/
def embedBatches (embed : List Str → Except Str (List V)) :
    List (List (VectorRecord V)) → List (PipelineEffect V) × Except Str (List (VectorRecord V))
  | [] => ([], .ok [])
  | b :: rest =>
    let texts := b.map (fun r => r.metadata.text)
    match embed texts with
    | .error e =>
      ([.embedCall texts], .error ("Embedding batch failed: ".data ++ e))
    | .ok vals =>
      let withVals := b.enum.map fun jr => { jr.2 with values := vals.get? jr.1 }
      match embedBatches embed rest with
      | (tr, .error e) => (.embedCall texts :: tr, .error e)
      | (tr, .ok rest2) => (.embedCall texts :: tr, .ok (withVals ++ rest2))

/-- `ingestPaths(options)`: collect files, build records, embed in batches
of 100, then upsert everything under the namespace. Returns the effect
trace and the call's outcome; `none` models divergence in the chunker. -/
def ingestPathsRun (w : IngestWorld V) (inputs : List Str) (ns : Str)
    (chunkSize chunkOverlap : Nat) :
    Option (List (PipelineEffect V) × Except Str Unit) :=
  let files := w.collectFiles inputs
  if files.length = 0 then some ([], .ok ())
  else
    match buildRecords w chunkSize chunkOverlap files with
    | none => none
    | some (tr, allRecords) =>
      if allRecords.length = 0 then some (tr, .ok ())
      else
        match embedBatches w.embed (chunksOf 100 allRecords) with
        | (tr2, .error e) => some (tr ++ tr2, .error e)
        | (tr2, .ok embedded) =>
          match w.upsert embedded ns with
          | .error e => some (tr ++ tr2 ++ [.upsertCall embedded ns], .error e)
          | .ok _ => some (tr ++ tr2 ++ [.upsertCall embedded ns], .ok ())

/-! ## Options (`src/core/ContextWindow.ts`, `normalizeOptions`)

TypeScript's `x || d` on an optional field: `undefined` and the falsy
values (`""` for strings, `0` for numbers) are replaced by the default. -/

/-- `x || d` for an optional numeric field (`0` is falsy). -/
def orDefaultNum [Zero α] [DecidableEq α] (x : Option α) (d : α) : α :=
  match x with
  | none => d
  | some v => if v = 0 then d else v

/-- `x || d` for an optional string field (`""` is falsy). -/
def orDefaultStr (x : Option Str) (d : Str) : Str :=
  match x with
  | none => d
  | some s => if s = [] then d else s

/-- `!x` for an optional string: true for `undefined` and `""`. -/
def strFalsy : Option Str → Bool
  | none => true
  | some s => s = []

/-- `data: string | string[]`. -/
inductive DataInput where
  | single (path : Str)
  | multiple (paths : List Str)
deriving Repr, DecidableEq

/-- `Array.isArray(opts.data) ? opts.data : [opts.data]`. -/
def dataPathsOf : DataInput → List Str
  | .single p => [p]
  | .multiple ps => ps

/-- `ai?: { provider: "openai"; model?: string }`. -/
structure AIConfig where
  model : Option Str
deriving Repr, DecidableEq

/-- `vectorStore?: { provider: "pinecone"; namespace?: string }`
(`nmspace` models the `namespace` field, a reserved word here). -/
structure VectorStoreConfig where
  nmspace : Option Str
deriving Repr, DecidableEq

/-- `chunk?: { size?: number; overlap?: number }`. -/
structure ChunkConfig where
  size : Option Nat
  overlap : Option Nat
deriving Repr, DecidableEq

/-- `limits?: { topK?: number; maxContextChars?: number; scoreThreshold?: number }`.
The score threshold is a similarity score; it is modelled as a rational. -/
structure LimitsConfig where
  topK : Option Nat
  maxContextChars : Option Nat
  scoreThreshold : Option Rat
deriving Repr, DecidableEq

/-- The options record `createContextWindow` receives; `none` models an
absent optional field. -/
structure CreateContextWindowOptions where
  indexName : Option Str
  data : DataInput
  ai : Option AIConfig
  vectorStore : Option VectorStoreConfig
  chunk : Option ChunkConfig
  limits : Option LimitsConfig
deriving Repr, DecidableEq

/-- The options after validation and defaulting. -/
structure NormalizedOptions where
  indexName : Str
  dataPaths : List Str
  aiModel : Str
  nmspace : Str
  chunkSize : Nat
  chunkOverlap : Nat
  topK : Nat
  maxContextChars : Nat
  scoreThreshold : Rat
deriving Repr, DecidableEq

/-- `normalizeOptions(opts)`: apply the `||` defaults, then throw on a
missing/empty `indexName` (the required logical-name field, called the
namespace by the documentation) or an empty data-path list. -/
def normalizeOptions (opts : CreateContextWindowOptions) :
    Except Str NormalizedOptions :=
  let dataPaths := dataPathsOf opts.data
  if strFalsy opts.indexName then .error "indexName is required".data
  else if dataPaths.length = 0 then .error "at least one data path is required".data
  else
    let indexName := opts.indexName.getD []
    .ok
      { indexName
        dataPaths
        aiModel := orDefaultStr (opts.ai.bind (fun a => a.model)) "gpt-4o-mini".data
        nmspace := orDefaultStr (opts.vectorStore.bind (fun v => v.nmspace)) indexName
        chunkSize := orDefaultNum (opts.chunk.bind (fun c => c.size)) 1000
        chunkOverlap := orDefaultNum (opts.chunk.bind (fun c => c.overlap)) 150
        topK := orDefaultNum (opts.limits.bind (fun l => l.topK)) 8
        maxContextChars := orDefaultNum (opts.limits.bind (fun l => l.maxContextChars)) 8000
        scoreThreshold := orDefaultNum (opts.limits.bind (fun l => l.scoreThreshold)) 0 }

/-! ## Retrieval/answer orchestrator (`ask` in `src/core/ContextWindow.ts`) -/

/-- The apostrophe character (written by code point). -/
def apos : Char := Char.ofNat 39

/-- The fixed no-context answer: `I don’t know based on the uploaded
files.` (with a plain ASCII apostrophe). -/
def idkAnswer : Str :=
  "I don".data ++ apos :: "t know based on the uploaded files.".data

/-- `buildSystemPrompt(context)`: the strict-RAG system instruction with
the packed context embedded. -/
def buildSystemPrompt (context : Str) : Str :=
  "You are a strict RAG assistant.\n\nAnswer ONLY using the provided context. If not fully supported,\nsay: \"".data ++
  idkAnswer ++
  "\"\nCite sources like [filename]. Keep answers concise.\n\nContext:\n".data ++
  context

/-- The result of `ask`: answer text and cited sources. -/
structure AskResult where
  text : Str
  sources : List Str
deriving Repr, DecidableEq

/-- The configuration an `ask` closure is bound to. -/
structure AskConfig where
  aiModel : Str
  nmspace : Str
  topK : Nat
  maxContextChars : Nat
  scoreThreshold : Rat
deriving Repr, DecidableEq

/-- The external collaborators of `ask`: question embedding, vector-store
query and chat generation. -/
structure AskWorld (V : Type) where
  embed : List Str → Except Str (List V)
  query : Option V → Nat → Str → Rat → Except Str (List MatchMeta)
  chat : Str → Str → Str → Except Str Str

/-- Observable collaborator invocations of one `ask` call. -/
inductive AskEffect where
  | embedCall (texts : List Str)
  | queryCall (topK : Nat) (ns : Str)
  | chatCall (model system user : Str)
deriving Repr, DecidableEq

/-- Whether an effect is a chat-generation invocation. -/
def AskEffect.isChat : AskEffect → Bool
  | .chatCall _ _ _ => true
  | _ => false

/-- `ask(question)`: embed the question, query the store, pack context;
if the packed context is empty or blank, return the fixed answer with no
sources and skip generation; otherwise generate with the strict prompt.
Returns the effect trace together with the call's outcome. -/
def askRun (cfg : AskConfig) (w : AskWorld V) (question : Str) :
    List AskEffect × Except Str AskResult :=
  match w.embed [question] with
  | .error e => ([.embedCall [question]], .error e)
  | .ok vecs =>
    match w.query vecs.head? cfg.topK cfg.nmspace cfg.scoreThreshold with
    | .error e =>
      ([.embedCall [question], .queryCall cfg.topK cfg.nmspace], .error e)
    | .ok ms =>
      let packed := packContext ms cfg.maxContextChars
      if packed.context = [] || (jsTrim packed.context).length = 0 then
        ([.embedCall [question], .queryCall cfg.topK cfg.nmspace],
         .ok { text := idkAnswer, sources := [] })
      else
        let systemPrompt := buildSystemPrompt packed.context
        match w.chat cfg.aiModel systemPrompt question with
        | .error e =>
          ([.embedCall [question], .queryCall cfg.topK cfg.nmspace,
            .chatCall cfg.aiModel systemPrompt question], .error e)
        | .ok answer =>
          ([.embedCall [question], .queryCall cfg.topK cfg.nmspace,
            .chatCall cfg.aiModel systemPrompt question],
           .ok { text := answer, sources := packed.sources })

/-! ## Pipeline creation (`createContextWindow`) -/

/-- `createContextWindow`'s collaborators: the ingestion world plus index
provisioning. -/
structure CreateWorld (V : Type) extends IngestWorld V where
  ensureIndex : Nat → Except Str Unit

/-- `createContextWindow(opts)`: normalize options (throwing synchronously
on configuration errors), ensure the index exists, then ingest. The effect
trace records every collaborator invocation; a configuration error yields
an empty trace. -/
def createContextWindowRun (w : CreateWorld V) (opts : CreateContextWindowOptions) :
    Option (List (PipelineEffect V) × Except Str NormalizedOptions) :=
  match normalizeOptions opts with
  | .error e => some ([], .error e)
  | .ok config =>
    match w.ensureIndex 1536 with
    | .error e => some ([.ensureIndexCall 1536], .error e)
    | .ok _ =>
      match ingestPathsRun w.toIngestWorld config.dataPaths config.nmspace
          config.chunkSize config.chunkOverlap with
      | none => none
      | some (tr, .error e) => some (.ensureIndexCall 1536 :: tr, .error e)
      | some (tr, .ok _) => some (.ensureIndexCall 1536 :: tr, .ok config)

/-! ## Window registry (`src/core/registry.ts`) -/

/-- Optional overrides accepted by `getCtxWindow`. -/
structure GetContextWindowOptions where
  aiModel : Option Str
  nmspace : Option Str
  topK : Option Nat
  maxContextChars : Option Nat
  scoreThreshold : Option Rat
deriving Repr, DecidableEq

/-- `createContextWindowWithoutIngestion(indexName, options)`: the bound
configuration of a handle connected to an existing namespace, all defaults
applied. The returned object's `ask` is `askRun` at this configuration. -/
def createContextWindowWithoutIngestion (indexName : Str)
    (options : Option GetContextWindowOptions) : AskConfig :=
  { aiModel := orDefaultStr (options.bind (fun o => o.aiModel)) "gpt-4o-mini".data
    nmspace := orDefaultStr (options.bind (fun o => o.nmspace)) indexName
    topK := orDefaultNum (options.bind (fun o => o.topK)) 8
    maxContextChars := orDefaultNum (options.bind (fun o => o.maxContextChars)) 8000
    scoreThreshold := orDefaultNum (options.bind (fun o => o.scoreThreshold)) 0 }

/-- The process-wide registry `Map`, as an insertion-ordered association
list from namespace to bound handle configuration. -/
abbrev Registry := List (Str × AskConfig)

/-- `Map.get`: the value at the key (first occurrence). -/
def registryGet : Registry → Str → Option AskConfig
  | [], _ => none
  | p :: rest, k => if p.1 = k then some p.2 else registryGet rest k

/-- `Map.set`: replace in place if the key exists, else append. -/
def registrySet (r : Registry) (k : Str) (v : AskConfig) : Registry :=
  if (registryGet r k).isSome then
    r.map (fun p => if p.1 = k then (k, v) else p)
  else r ++ [(k, v)]

/-- `getCtxWindow(namespace, options)`: return the registered handle if
present, else connect without ingestion and register the new handle.
Returns the handle and the updated registry. -/
def getCtxWindow (r : Registry) (ns : Str)
    (options : Option GetContextWindowOptions) : AskConfig × Registry :=
  match registryGet r ns with
  | some cw => (cw, r)
  | none =>
    let cw := createContextWindowWithoutIngestion ns options
    (cw, registrySet r ns cw)

/-- `hasCtxWindow(namespace)`. -/
def hasCtxWindow (r : Registry) (ns : Str) : Bool :=
  (registryGet r ns).isSome

/-! ## Ingestion lemmas -/

theorem buildRecords_cons {V : Type} (w : IngestWorld V) (cs co : Nat)
    (f : Str) (rest : List Str) (tr : List (PipelineEffect V))
    (recs : List (VectorRecord V))
    (h : buildRecords w cs co (f :: rest) = some (tr, recs)) :
    ∃ frecs tr2 recs2, buildRecords w cs co rest = some (tr2, recs2) ∧
      tr = .extractCall f :: tr2 ∧ recs = frecs ++ recs2 := by
  simp only [buildRecords] at h
  split at h
  · simp at h
  · rename_i recs1 heq
    rcases hrest : buildRecords w cs co rest with _ | ⟨tr2, recs2⟩ <;> rw [hrest] at h
    · simp at h
    · rw [Option.some.injEq, Prod.mk.injEq] at h
      exact ⟨recs1, tr2, recs2, rfl, h.1.symm, h.2.symm⟩

theorem buildRecords_no_upsert {V : Type} (w : IngestWorld V)
    (chunkSize chunkOverlap : Nat) :
    ∀ (fs : List Str) (tr : List (PipelineEffect V)) (recs : List (VectorRecord V)),
      buildRecords w chunkSize chunkOverlap fs = some (tr, recs) →
      ∀ eff ∈ tr, eff.isUpsert = false := by
  intro fs
  induction fs with
  | nil =>
    intro tr recs h
    simp only [buildRecords, Option.some.injEq, Prod.mk.injEq] at h
    obtain ⟨rfl, -⟩ := h
    intro eff h2
    simp at h2
  | cons f rest ih =>
    intro tr recs h
    obtain ⟨frecs, tr2, recs2, hrest, rfl, -⟩ :=
      buildRecords_cons w chunkSize chunkOverlap f rest tr recs h
    intro eff heff
    rcases List.mem_cons.mp heff with rfl | h3
    · rfl
    · exact ih tr2 recs2 hrest eff h3

theorem embedBatches_step {V : Type} (embed : List Str → Except Str (List V))
    (b : List (VectorRecord V)) (rest : List (List (VectorRecord V))) :
    (∃ e, embed (b.map fun r => r.metadata.text) = .error e ∧
      embedBatches embed (b :: rest) =
        ([.embedCall (b.map fun r => r.metadata.text)],
         .error ("Embedding batch failed: ".data ++ e))) ∨
    (∃ vals, embed (b.map fun r => r.metadata.text) = .ok vals ∧
      embedBatches embed (b :: rest) =
        (.embedCall (b.map fun r => r.metadata.text) :: (embedBatches embed rest).1,
         match (embedBatches embed rest).2 with
         | .error e => .error e
         | .ok rest2 =>
           .ok ((b.enum.map fun jr => { jr.2 with values := vals.get? jr.1 }) ++ rest2))) := by
  rcases hemb : embed (b.map fun r => r.metadata.text) with e | vals
  · left
    exact ⟨e, hemb, by simp only [embedBatches, hemb]⟩
  · right
    refine ⟨vals, hemb, ?_⟩
    simp only [embedBatches, hemb]
    rcases hrest : embedBatches embed rest with ⟨tr2, res2⟩
    rcases res2 with e2 | out2 <;> simp

theorem chunksOfFuel_flatten (n : Nat) (hn : 0 < n) :
    ∀ (fuel : Nat) (l : List α), l.length ≤ fuel →
      (chunksOfFuel n fuel l).flatten = l := by
  intro fuel
  induction fuel with
  | zero =>
    intro l h
    obtain rfl := List.eq_nil_of_length_eq_zero (Nat.le_zero.mp h)
    rfl
  | succ fuel ih =>
    intro l h
    match l with
    | [] => rfl
    | a :: rest =>
      simp only [chunksOfFuel, List.flatten_cons]
      have hlen : ((a :: rest).drop n).length ≤ fuel := by
        simp only [List.length_drop, List.length_cons] at h ⊢
        omega
      rw [ih ((a :: rest).drop n) hlen]
      exact List.take_append_drop n (a :: rest)

theorem chunksOf_flatten (n : Nat) (hn : 0 < n) (l : List α) :
    (chunksOf n l).flatten = l :=
  chunksOfFuel_flatten n hn l.length l le_rfl

theorem embedBatches_ok_ids {V : Type} (embed : List Str → Except Str (List V)) :
    ∀ (bs : List (List (VectorRecord V))) (tr : List (PipelineEffect V))
      (out : List (VectorRecord V)),
      embedBatches embed bs = (tr, .ok out) →
      out.map (fun r => r.id) = bs.flatten.map (fun r => r.id) := by
  intro bs
  induction bs with
  | nil =>
    intro tr out h
    simp only [embedBatches, Prod.mk.injEq] at h
    obtain rfl := (Except.ok.inj h.2).symm
    rfl
  | cons b rest ih =>
    intro tr out h
    rcases embedBatches_step embed b rest with ⟨e, hemb, heq⟩ | ⟨vals, hemb, heq⟩
    · rw [heq] at h
      exact absurd (Prod.mk.injEq .. ▸ h).2 (by simp)
    · rw [heq] at h
      rcases hrest : embedBatches embed rest with ⟨tr2, res2⟩
      rw [hrest] at h
      rcases res2 with e2 | out2
    --
      · simp at h
      · simp only [Prod.mk.injEq] at h
        obtain rfl := (Except.ok.inj h.2).symm
        rw [List.flatten_cons, List.map_append, List.map_append]
        congr 1
        · show List.map (fun r => r.id)
            (b.enum.map fun jr => { jr.2 with values := vals.get? jr.1 }) = _
          rw [List.map_map]
          show List.map ((fun r : VectorRecord V => r.id) ∘ Prod.snd) b.enum = _
          rw [← List.map_map, List.enum_map_snd]
        · exact ih tr2 out2 hrest

theorem embedBatches_fail {V : Type} (embed : List Str → Except Str (List V)) :
    ∀ bs : List (List (VectorRecord V)),
      (∃ b ∈ bs, ∃ e, embed (b.map fun r => r.metadata.text) = .error e) →
      ∃ e2, (embedBatches embed bs).2 = .error e2 := by
  intro bs
  induction bs with
  | nil => intro h; simp at h
  | cons b rest ih =>
    intro h
    rcases embedBatches_step embed b rest with ⟨e, hemb, heq⟩ | ⟨vals, hemb, heq⟩
    · exact ⟨_, by rw [heq]⟩
    · rcases hrest : embedBatches embed rest with ⟨tr2, res2⟩
      rw [hrest] at heq
      obtain ⟨e2, he2⟩ : ∃ e2, res2 = .error e2 := by
        rcases h with ⟨b2, hmem, e3, hb2⟩
        rcases List.mem_cons.mp hmem with rfl | hmem2
        · rw [hemb] at hb2
          exact absurd hb2 (by simp)
        · have := ih ⟨b2, hmem2, e3, hb2⟩
          rw [hrest] at this
          exact this
      subst he2
      exact ⟨e2, by rw [heq]⟩

theorem embedBatches_no_upsert {V : Type} (embed : List Str → Except Str (List V)) :
    ∀ (bs : List (List (VectorRecord V))) (eff : PipelineEffect V),
      eff ∈ (embedBatches embed bs).1 → eff.isUpsert = false := by
  intro bs
  induction bs with
  | nil => intro eff h; simp [embedBatches] at h
  | cons b rest ih =>
    intro eff h
    rcases embedBatches_step embed b rest with ⟨e, hemb, heq⟩ | ⟨vals, hemb, heq⟩
    · rw [heq] at h
      simp only [List.mem_singleton] at h
      subst h; rfl
    · rw [heq] at h
      simp only [List.mem_cons] at h
      rcases h with rfl | h2
      · rfl
      · exact ih eff h2


/-! ## Digest shape lemmas -/

theorem bytesHex_length : ∀ l : List Nat, (bytesHex l).length = 2 * l.length
  | [] => rfl
  | b :: bl => by
    show (byteHex b ++ bytesHex bl).length = 2 * (b :: bl).length
    rw [List.length_append, bytesHex_length bl,
      show (byteHex b).length = 2 from rfl, List.length_cons]
    omega

theorem sha1Bytes_length (msg : List Nat) : (sha1Bytes msg).length = 20 := by
  simp [sha1Bytes, wordBytes]

theorem stableHash_length (s : Str) : (stableHash s).length = 40 := by
  rw [stableHash, bytesHex_length, sha1Bytes_length]

theorem hexChar_mem (n : Nat) : hexChar n ∈ hexDigits := by
  by_cases h : n < hexDigits.length
  · rw [hexChar, List.getD_eq_getElem?_getD, List.getElem?_eq_getElem h]
    exact List.getElem_mem h
  · rw [hexChar, List.getD_eq_getElem?_getD,
      List.getElem?_eq_none (Nat.le_of_not_lt h)]
    decide

theorem stableHash_mem_hex (s : Str) : ∀ c ∈ stableHash s, c ∈ hexDigits := by
  intro c hc
  rw [stableHash, bytesHex] at hc
  obtain ⟨y, hy, hcy⟩ := List.exists_of_mem_flatten hc
  obtain ⟨b, -, rfl⟩ := List.mem_map.mp hy
  simp only [byteHex, List.mem_cons, List.not_mem_nil, or_false] at hcy
  rcases hcy with rfl | rfl <;> exact hexChar_mem _

/-! ## Packer lemmas -/

/-- Total character count of a list of chunk texts. -/
def sumLen (l : List Str) : Nat := (l.map List.length).sum

/-- The prefix of the match list the packer's loop accepts, starting from a
running total: stop at the first match that would push the total over the
budget. -/
def fitPrefix (maxContextChars : Nat) : Nat → List MatchMeta → List MatchMeta
  | _, [] => []
  | totalChars, m :: rest =>
    if maxContextChars < totalChars + m.text.length then []
    else m :: fitPrefix maxContextChars (totalChars + m.text.length) rest

theorem packLoop_fst (maxContextChars : Nat) :
    ∀ (ms : List MatchMeta) (total : Nat) (chunks sources seen : List Str),
      (packLoop maxContextChars ms total chunks sources seen).1 =
        chunks ++ (fitPrefix maxContextChars total ms).map (fun m => m.text) := by
  intro ms
  induction ms with
  | nil => intro total chunks sources seen; simp [packLoop, fitPrefix]
  | cons m rest ih =>
    intro total chunks sources seen
    simp only [packLoop, fitPrefix]
    by_cases h : maxContextChars < total + m.text.length
    · simp [h]
    · simp only [if_neg h, ih, List.map_cons]
      simp

theorem fitPrefix_sum (maxContextChars : Nat) :
    ∀ (ms : List MatchMeta) (total : Nat), total ≤ maxContextChars →
      total + sumLen ((fitPrefix maxContextChars total ms).map (fun m => m.text)) ≤
        maxContextChars := by
  intro ms
  induction ms with
  | nil => intro total h; simpa [fitPrefix, sumLen] using h
  | cons m rest ih =>
    intro total h
    simp only [fitPrefix]
    by_cases ho : maxContextChars < total + m.text.length
    · simpa [ho, sumLen] using h
    · have := ih (total + m.text.length) (Nat.not_lt.mp ho)
      simp only [if_neg ho, List.map_cons, sumLen, List.map, List.sum_cons] at this ⊢
      omega

theorem fitPrefix_take (maxContextChars : Nat) :
    ∀ (ms : List MatchMeta) (total : Nat),
      ∃ k ≤ ms.length,
        fitPrefix maxContextChars total ms = ms.take k ∧
        (k < ms.length →
          maxContextChars <
            total + sumLen ((ms.take k).map (fun m => m.text)) +
              (ms.getD k ⟨[], []⟩).text.length) := by
  intro ms
  induction ms with
  | nil => intro total; exact ⟨0, by simp, by simp [fitPrefix], by simp⟩
  | cons m rest ih =>
    intro total
    by_cases ho : maxContextChars < total + m.text.length
    · refine ⟨0, by simp, by simp [fitPrefix, ho], fun _ => ?_⟩
      simpa [sumLen] using ho
    · obtain ⟨k, hk, heq, hover⟩ := ih (total + m.text.length)
      refine ⟨k + 1, by simpa using hk, ?_, ?_⟩
      · simp [fitPrefix, ho, heq]
      · intro hlt
        have h2 := hover (by simpa using hlt)
        simp only [sumLen, List.take_succ_cons, List.map_cons, List.sum_cons,
          List.getD_cons_succ] at h2 ⊢
        omega
/-! ## Chunker lemmas -/

theorem chunkLoop_spec (size overlap : Nat) (text : Str) (hov : overlap < size) :
    ∀ (fuel start : Nat) (l : List Str),
      chunkLoop size overlap text fuel start = some l →
      start < text.length →
      ∀ i, i < l.length →
        l.getD i [] = (text.drop (start + i * (size - overlap))).take size ∧
        (i + 1 < l.length → start + i * (size - overlap) + size < text.length) := by
  intro fuel
  induction fuel with
  | zero => intro start l h; simp [chunkLoop] at h
  | succ fuel ih =>
    intro start l h hstart i hi
    simp only [chunkLoop] at h
    rw [if_neg (Nat.not_le.mpr hstart)] at h
    by_cases hend : text.length ≤ start + size
    · rw [if_pos hend] at h
      obtain rfl : [(text.drop start).take size] = l := by
        simpa using h
      simp only [List.length_singleton] at hi
      interval_cases i
      refine ⟨by simp, ?_⟩
      intro h1
      simp at h1
    · rw [if_neg hend] at h
      obtain ⟨l', hl', rfl⟩ := Option.map_eq_some'.mp h
      have hstart' : start + (size - overlap) < text.length := by omega
      match i with
      | 0 =>
        refine ⟨by simp, fun _ => ?_⟩
        simpa using Nat.lt_of_not_le hend
      | j + 1 =>
        have hj : j < l'.length := by simpa using hi
        obtain ⟨hval, hnext⟩ := ih (start + (size - overlap)) l' hl' hstart' j hj
        have harith : start + (size - overlap) + j * (size - overlap) =
            start + (j + 1) * (size - overlap) := by
          rw [Nat.succ_mul]
          omega
        constructor
        · simpa [harith] using hval
        · intro hlt
          have := hnext (by simpa using hlt)
          rw [← harith]
          exact this

theorem chunkLoop_total (size overlap : Nat) (text : Str) (hov : overlap < size) :
    ∀ (fuel start : Nat), start < text.length → text.length - start ≤ fuel →
      ∃ l, chunkLoop size overlap text fuel start = some l := by
  intro fuel
  induction fuel with
  | zero => intro start h1 h2; omega
  | succ fuel ih =>
    intro start h1 h2
    simp only [chunkLoop]
    rw [if_neg (Nat.not_le.mpr h1)]
    by_cases hend : text.length ≤ start + size
    · exact ⟨_, by rw [if_pos hend]⟩
    · rw [if_neg hend]
      obtain ⟨l', hl'⟩ := ih (start + (size - overlap)) (by omega) (by omega)
      exact ⟨_, by rw [hl']; rfl⟩
/-! ## Claim theorems: packer and chunker -/

/-- **C2.** For every ordered match list and every `maxChars > 0`, the
total character count of the chunk texts `packContext` selects (ignoring
the join separators) never exceeds `maxChars`, and the selection is an
exact prefix of the match list: the first match whose text would push the
running total over `maxChars` stops the iteration entirely, so no later
match is included even if a smaller later match would fit. -/
theorem pack_budget_and_prefix_stop (ms : List MatchMeta) (maxChars : Nat)
    (hpos : 0 < maxChars) :
    sumLen (packContextChunks ms maxChars) ≤ maxChars ∧
    ∃ k ≤ ms.length,
      packContextChunks ms maxChars = (ms.take k).map (fun m => m.text) ∧
      (k < ms.length →
        maxChars < sumLen ((ms.take k).map (fun m => m.text)) +
          (ms.getD k ⟨[], []⟩).text.length) := by
  have hc : packContextChunks ms maxChars =
      (fitPrefix maxChars 0 ms).map (fun m => m.text) := by
    simp [packContextChunks, packLoop_fst]
  constructor
  · have h := fitPrefix_sum maxChars ms 0 (Nat.zero_le _)
    rw [hc]
    omega
  · obtain ⟨k, hk, heq, hov⟩ := fitPrefix_take maxChars ms 0
    refine ⟨k, hk, by rw [hc, heq], fun hlt => ?_⟩
    have := hov hlt
    omega

theorem pack_budget_and_prefix_stop_witness :
    sumLen (packContextChunks [⟨"abcd".data, "s".data⟩, ⟨"e".data, "t".data⟩] 3) ≤ 3 ∧
    ∃ k ≤ ([⟨"abcd".data, "s".data⟩, ⟨"e".data, "t".data⟩] : List MatchMeta).length,
      packContextChunks [⟨"abcd".data, "s".data⟩, ⟨"e".data, "t".data⟩] 3 =
        (([⟨"abcd".data, "s".data⟩, ⟨"e".data, "t".data⟩] : List MatchMeta).take k).map
          (fun m => m.text) ∧
      (k < ([⟨"abcd".data, "s".data⟩, ⟨"e".data, "t".data⟩] : List MatchMeta).length →
        3 < sumLen ((([⟨"abcd".data, "s".data⟩, ⟨"e".data, "t".data⟩] :
            List MatchMeta).take k).map (fun m => m.text)) +
          (([⟨"abcd".data, "s".data⟩, ⟨"e".data, "t".data⟩] :
            List MatchMeta).getD k ⟨[], []⟩).text.length) :=
  pack_budget_and_prefix_stop _ 3 (by decide)

/-- **C7.** For every text, every `size > 0` and every `overlap` with
`0 ≤ overlap < size`, `chunkText` terminates with a finite chunk sequence
(the embedding returns `some`): the window start strictly increases by
`size - overlap ≥ 1` per iteration, so `text.length` iterations suffice. -/
theorem chunkText_terminates (text : Str) (size overlap : Nat)
    (hsize : 0 < size) (hov : overlap < size) :
    (chunkText text size overlap).isSome = true := by
  unfold chunkText
  by_cases h0 : text.length = 0
  · simp [h0]
  · rw [if_neg h0]
    by_cases h1 : text.length ≤ size
    · simp [h1]
    · rw [if_neg h1]
      obtain ⟨l, hl⟩ :=
        chunkLoop_total size overlap text hov text.length 0 (by omega) (by omega)
      simp [hl]

theorem chunkText_terminates_witness :
    (chunkText "abcdefgh".data 3 1).isSome = true :=
  chunkText_terminates _ 3 1 (by decide) (by decide)

/-- **C4.** For every text longer than `size`, every `size > 0` and
`0 ≤ overlap < size`: each chunk other than the final one has length
exactly `size`, and consecutive chunks overlap by exactly `overlap`
characters — the last `overlap` characters of `chunks[i]` equal the first
`overlap` characters of `chunks[i+1]`. -/
theorem chunkText_consecutive_overlap (text : Str) (size overlap : Nat)
    (chunks : List Str)
    (hlen : size < text.length) (hsize : 0 < size) (hov : overlap < size)
    (hchunks : chunkText text size overlap = some chunks)
    (i : Nat) (hi : i + 1 < chunks.length) :
    (chunks.getD i []).length = size ∧
    (chunks.getD i []).drop (size - overlap) = (chunks.getD (i + 1) []).take overlap := by
  have h0 : text.length ≠ 0 := by omega
  have h1 : ¬ text.length ≤ size := by omega
  rw [chunkText, if_neg h0, if_neg h1] at hchunks
  have spec := chunkLoop_spec size overlap text hov text.length 0 chunks hchunks (by omega)
  obtain ⟨hvi, hni⟩ := spec i (by omega)
  obtain ⟨hvi1, _⟩ := spec (i + 1) hi
  have hfull : i * (size - overlap) + size < text.length := by
    have := hni hi
    omega
  simp only [Nat.zero_add] at hvi hvi1 hfull
  constructor
  · rw [hvi, List.length_take, List.length_drop]
    omega
  · rw [hvi, hvi1, List.drop_take, List.drop_drop,
      Nat.sub_sub_self (Nat.le_of_lt hov), List.take_take,
      Nat.min_eq_left (Nat.le_of_lt hov)]
    have harith : i * (size - overlap) + (size - overlap) =
        (i + 1) * (size - overlap) := by
      rw [Nat.succ_mul]
    rw [harith]

theorem chunkText_consecutive_overlap_witness :
    (chunkText "abcdefgh".data 3 1 = some ["abc".data, "cde".data, "efg".data, "gh".data]) ∧
    ((["abc".data, "cde".data, "efg".data, "gh".data] : List Str).getD 0 []).length = 3 ∧
    ((["abc".data, "cde".data, "efg".data, "gh".data] : List Str).getD 0 []).drop 2 =
      ((["abc".data, "cde".data, "efg".data, "gh".data] : List Str).getD 1 []).take 1 :=
  ⟨by decide,
   chunkText_consecutive_overlap "abcdefgh".data 3 1 _
     (by decide) (by decide) (by decide) (by decide) 0 (by decide)⟩
/-! ## Decidability of collaborator outcomes -/

instance exceptDecEq {ε α : Type} [DecidableEq ε] [DecidableEq α] :
    DecidableEq (Except ε α)
  | .error e, .error f =>
    if h : e = f then isTrue (by rw [h])
    else isFalse (fun hc => h (Except.error.inj hc))
  | .error _, .ok _ => isFalse (fun hc => Except.noConfusion hc)
  | .ok _, .error _ => isFalse (fun hc => Except.noConfusion hc)
  | .ok a, .ok b =>
    if h : a = b then isTrue (by rw [h])
    else isFalse (fun hc => h (Except.ok.inj hc))

/-! ## Claim theorems: configuration -/

/-- **C1.** Every options value whose required logical-name field
(`indexName`, the field the spec calls the namespace) is missing or empty,
or whose data-path list is empty, makes `createContextWindow` fail
synchronously with a configuration error and an empty collaborator trace:
no embedding, index-provisioning, extraction or upsert call happens. -/
theorem config_error_before_io (V : Type) (w : CreateWorld V)
    (opts : CreateContextWindowOptions)
    (h : strFalsy opts.indexName = true ∨ (dataPathsOf opts.data).length = 0) :
    ∃ e, createContextWindowRun w opts = some ([], .error e) := by
  by_cases h1 : strFalsy opts.indexName = true
  · exact ⟨"indexName is required".data,
      by simp [createContextWindowRun, normalizeOptions, h1]⟩
  · rcases h with h | h
    · exact absurd h h1
    · exact ⟨"at least one data path is required".data,
        by simp [createContextWindowRun, normalizeOptions, h1, h]⟩

/-- A trivial collaborator world over `V = Nat`, used for witnesses. -/
def trivialCreateWorld : CreateWorld Nat :=
  { collectFiles := fun _ => []
    readAsText := fun _ => .error []
    embed := fun _ => .ok []
    upsert := fun _ _ => .ok ()
    ensureIndex := fun _ => .ok () }

theorem config_error_before_io_witness :
    ∃ e, createContextWindowRun trivialCreateWorld
      { indexName := none, data := .single "d.txt".data, ai := none,
        vectorStore := none, chunk := none, limits := none } =
      some ([], .error e) :=
  config_error_before_io Nat trivialCreateWorld _ (Or.inl (by decide))

/-- **C9.** Option normalization implements the JavaScript `||` defaults,
so an explicit `0` is silently replaced by the documented default: chunk
overlap `0` becomes 150, chunk size `0` becomes 1000, `topK` `0` becomes 8
and `maxContextChars` `0` becomes 8000 (both in `normalizeOptions` and in
`createContextWindowWithoutIngestion`); consequently no normalized
configuration ever has chunk overlap `0`, even though the chunker contract
itself admits zero overlap. -/
theorem zero_options_become_defaults (opts : CreateContextWindowOptions)
    (c : NormalizedOptions) (h : normalizeOptions opts = .ok c) :
    (opts.chunk.bind (fun x => x.overlap) = some 0 → c.chunkOverlap = 150) ∧
    (opts.chunk.bind (fun x => x.size) = some 0 → c.chunkSize = 1000) ∧
    (opts.limits.bind (fun x => x.topK) = some 0 → c.topK = 8) ∧
    (opts.limits.bind (fun x => x.maxContextChars) = some 0 → c.maxContextChars = 8000) ∧
    c.chunkOverlap ≠ 0 ∧
    (∀ (idx : Str) (gopts : Option GetContextWindowOptions),
      (gopts.bind (fun o => o.topK) = some 0 →
        (createContextWindowWithoutIngestion idx gopts).topK = 8) ∧
      (gopts.bind (fun o => o.maxContextChars) = some 0 →
        (createContextWindowWithoutIngestion idx gopts).maxContextChars = 8000)) := by
  rw [normalizeOptions] at h
  by_cases h1 : strFalsy opts.indexName = true
  · simp [h1] at h
  · rw [if_neg (by simpa using h1)] at h
    by_cases h2 : (dataPathsOf opts.data).length = 0
    · simp [h2] at h
    · rw [if_neg h2] at h
      obtain rfl := (Except.ok.inj h).symm
      refine ⟨fun ho => ?_, fun ho => ?_, fun ho => ?_, fun ho => ?_, ?_, ?_⟩
      · simp [ho, orDefaultNum]
      · simp [ho, orDefaultNum]
      · simp [ho, orDefaultNum]
      · simp [ho, orDefaultNum]
      · rcases hov : opts.chunk.bind (fun x => x.overlap) with _ | v
        · simp [hov, orDefaultNum]
        · simp only [hov, orDefaultNum]
          split_ifs with hz <;> omega
      · intro idx gopts
        constructor
        · intro ho
          simp [createContextWindowWithoutIngestion, ho, orDefaultNum]
        · intro ho
          simp [createContextWindowWithoutIngestion, ho, orDefaultNum]

/-- The options record of the C9 witness: every numeric limit set to 0. -/
def zeroOpts : CreateContextWindowOptions :=
  { indexName := some "i".data, data := .single "d.txt".data, ai := none,
    vectorStore := none,
    chunk := some { size := some 0, overlap := some 0 },
    limits := some { topK := some 0, maxContextChars := some 0, scoreThreshold := none } }

/-- The normalized options `zeroOpts` actually produces. -/
def zeroOptsNormalized : NormalizedOptions :=
  { indexName := "i".data, dataPaths := ["d.txt".data],
    aiModel := "gpt-4o-mini".data, nmspace := "i".data,
    chunkSize := 1000, chunkOverlap := 150, topK := 8,
    maxContextChars := 8000, scoreThreshold := 0 }

theorem zero_options_become_defaults_witness :
    zeroOptsNormalized.chunkOverlap = 150 ∧ zeroOptsNormalized.chunkSize = 1000 ∧
    zeroOptsNormalized.topK = 8 ∧ zeroOptsNormalized.maxContextChars = 8000 :=
  have happ := zero_options_become_defaults zeroOpts zeroOptsNormalized (by decide)
  ⟨happ.1 (by decide), happ.2.1 (by decide), happ.2.2.1 (by decide),
   happ.2.2.2.1 (by decide)⟩

/-! ## Claim theorems: retrieval/answer orchestrator -/

/-- **C3.** Whenever the vector query returns no matches above the
threshold, `ask` answers exactly `I don’t know based on the uploaded
files.` with an empty source list, and the chat (generation) collaborator
is never invoked. -/
theorem ask_no_matches_idk (V : Type) (cfg : AskConfig) (w : AskWorld V)
    (question : Str) (vecs : List V)
    (hembed : w.embed [question] = .ok vecs)
    (hquery : w.query vecs.head? cfg.topK cfg.nmspace cfg.scoreThreshold = .ok []) :
    askRun cfg w question =
      ([.embedCall [question], .queryCall cfg.topK cfg.nmspace],
       .ok { text := idkAnswer, sources := [] }) ∧
    ∀ e ∈ (askRun cfg w question).1, e.isChat = false := by
  have hmain : askRun cfg w question =
      ([.embedCall [question], .queryCall cfg.topK cfg.nmspace],
       .ok { text := idkAnswer, sources := [] }) := by
    simp [askRun, hembed, hquery, packContext, packLoop]
  refine ⟨hmain, ?_⟩
  rw [hmain]
  intro e he
  simp only [List.mem_cons, List.not_mem_nil, or_false] at he
  rcases he with rfl | rfl <;> rfl

/-- An `ask` world whose query finds nothing, for the C3 witness. -/
def noMatchWorld : AskWorld Nat :=
  { embed := fun _ => .ok [1]
    query := fun _ _ _ _ => .ok []
    chat := fun _ _ _ => .ok "SHOULD NOT RUN".data }

/-- The configuration bound by the witness worlds. -/
def witnessCfg : AskConfig :=
  { aiModel := "gpt-4o-mini".data, nmspace := "ns".data, topK := 8,
    maxContextChars := 8000, scoreThreshold := 0 }

theorem ask_no_matches_idk_witness :
    askRun witnessCfg noMatchWorld "q".data =
      ([.embedCall ["q".data], .queryCall witnessCfg.topK witnessCfg.nmspace],
       .ok { text := idkAnswer, sources := [] }) ∧
    ∀ e ∈ (askRun witnessCfg noMatchWorld "q".data).1, e.isChat = false :=
  ask_no_matches_idk Nat witnessCfg noMatchWorld "q".data [1] (by decide) (by decide)

/-- **C10 (amended).** `ask` returns the fixed answer with an empty source
list whenever the packed context text — join separators included — is
empty or whitespace-only, and then the chat collaborator is not invoked:
the sources the packer collected are discarded. Because whitespace-only
selected chunks are joined with the non-whitespace separator `---`, this
covers the case of at most one selected whitespace-only match (for two or
more, the packed text is not whitespace-only and generation proceeds, see
the counterexample). -/
theorem ask_blank_context_idk (V : Type) (cfg : AskConfig) (w : AskWorld V)
    (question : Str) (vecs : List V) (ms : List MatchMeta)
    (hembed : w.embed [question] = .ok vecs)
    (hquery : w.query vecs.head? cfg.topK cfg.nmspace cfg.scoreThreshold = .ok ms)
    (hblank : jsTrim (packContext ms cfg.maxContextChars).context = []) :
    askRun cfg w question =
      ([.embedCall [question], .queryCall cfg.topK cfg.nmspace],
       .ok { text := idkAnswer, sources := [] }) ∧
    ∀ e ∈ (askRun cfg w question).1, e.isChat = false := by
  have hmain : askRun cfg w question =
      ([.embedCall [question], .queryCall cfg.topK cfg.nmspace],
       .ok { text := idkAnswer, sources := [] }) := by
    simp [askRun, hembed, hquery, hblank]
  refine ⟨hmain, ?_⟩
  rw [hmain]
  intro e he
  simp only [List.mem_cons, List.not_mem_nil, or_false] at he
  rcases he with rfl | rfl <;> rfl

/-- A world whose query yields one whitespace-only match, for the amended
C10 witness: the packer collects the source label `s`, but `ask` discards
it. -/
def oneBlankMatchWorld : AskWorld Nat :=
  { embed := fun _ => .ok [1]
    query := fun _ _ _ _ => .ok [⟨" ".data, "s".data⟩]
    chat := fun _ _ _ => .ok "SHOULD NOT RUN".data }

theorem ask_blank_context_idk_witness :
    askRun witnessCfg oneBlankMatchWorld "q".data =
      ([.embedCall ["q".data], .queryCall witnessCfg.topK witnessCfg.nmspace],
       .ok { text := idkAnswer, sources := [] }) ∧
    ∀ e ∈ (askRun witnessCfg oneBlankMatchWorld "q".data).1, e.isChat = false :=
  ask_blank_context_idk Nat witnessCfg oneBlankMatchWorld "q".data [1]
    [⟨" ".data, "s".data⟩] (by decide) (by decide) (by decide)

/-- A world whose query yields two empty-text matches, for the C10
counterexample. -/
def twoBlankMatchWorld : AskWorld Nat :=
  { embed := fun _ => .ok [1]
    query := fun _ _ _ _ => .ok [⟨[], "a".data⟩, ⟨[], "b".data⟩]
    chat := fun _ _ _ => .ok "ANSWER".data }

/-- **C10 counterexample.** Two selected matches whose stored texts are
both empty: every selected match is whitespace-only, yet the packed
context is the bare separator (`trim` leaves `---`), so `ask` does NOT
return the fixed answer, DOES invoke the chat collaborator, and returns
the collected source labels instead of discarding them — refuting the
claim's "in particular" clause. -/
theorem ask_whitespace_sources_counterexample :
    (∀ mm ∈ [(⟨[], "a".data⟩ : MatchMeta), ⟨[], "b".data⟩], jsTrim mm.text = []) ∧
    (askRun witnessCfg twoBlankMatchWorld "q".data).2 =
      .ok { text := "ANSWER".data, sources := ["a".data, "b".data] } ∧
    (∃ e ∈ (askRun witnessCfg twoBlankMatchWorld "q".data).1, e.isChat = true) := by
  refine ⟨by decide, by decide, ?_⟩
  refine ⟨.chatCall witnessCfg.aiModel
    (buildSystemPrompt (packContext [⟨[], "a".data⟩, ⟨[], "b".data⟩]
      witnessCfg.maxContextChars).context) "q".data, ?_, rfl⟩
  decide

/-! ## Claim theorems: window registry -/

theorem registryGet_append_self (k : Str) (v : AskConfig) :
    ∀ r : Registry, registryGet r k = none →
      registryGet (r ++ [(k, v)]) k = some v := by
  intro r
  induction r with
  | nil => intro _; simp [registryGet]
  | cons p rest ih =>
    intro h
    simp only [registryGet] at h
    rw [List.cons_append]
    simp only [registryGet]
    by_cases hp : p.1 = k
    · rw [if_pos hp] at h
      exact absurd h (by simp)
    · rw [if_neg hp] at h
      rw [if_neg hp]
      exact ih h

theorem registryGet_set_replace (k : Str) (v : AskConfig) :
    ∀ r : Registry, (registryGet r k).isSome = true →
      registryGet (r.map (fun p => if p.1 = k then (k, v) else p)) k = some v := by
  intro r
  induction r with
  | nil => intro h; simp [registryGet] at h
  | cons p rest ih =>
    intro h
    by_cases hp : p.1 = k
    · simp [registryGet, hp]
    · simp only [registryGet, if_neg hp] at h
      simp only [List.map_cons, if_neg hp, registryGet]
      exact ih h

/-- `Map.set` makes the key present with the new value. -/
theorem registryGet_set_self (r : Registry) (k : Str) (v : AskConfig) :
    registryGet (registrySet r k v) k = some v := by
  rw [registrySet]
  by_cases h : (registryGet r k).isSome
  · rw [if_pos h]
    exact registryGet_set_replace k v r h
  · rw [if_neg h]
    exact registryGet_append_self k v r (Option.not_isSome_iff_eq_none.mp h)

/-- **C8.** `getCtxWindow` on a never-created namespace returns a usable
handle without throwing — the connect-without-ingestion configuration —
and registers it, so a subsequent `hasCtxWindow` on that namespace is
true; on an already-registered namespace it returns the existing bound
instance with the registry unchanged. -/
theorem registry_get_or_connect (r : Registry) (ns : Str)
    (options : Option GetContextWindowOptions) :
    hasCtxWindow (getCtxWindow r ns options).2 ns = true ∧
    (hasCtxWindow r ns = false →
      (getCtxWindow r ns options).1 = createContextWindowWithoutIngestion ns options) ∧
    (∀ cw0, registryGet r ns = some cw0 → getCtxWindow r ns options = (cw0, r)) := by
  refine ⟨?_, ?_, ?_⟩
  · rcases hreg : registryGet r ns with _ | cw
    · simp only [getCtxWindow, hreg, hasCtxWindow, registryGet_set_self]
      rfl
    · simp only [getCtxWindow, hreg, hasCtxWindow]
      rfl
  · intro h
    have hnone : registryGet r ns = none := by
      rw [hasCtxWindow] at h
      exact Option.not_isSome_iff_eq_none.mp (by simp [h])
    simp [getCtxWindow, hnone]
  · intro cw0 hreg
    simp [getCtxWindow, hreg]

theorem registry_get_or_connect_witness :
    hasCtxWindow (getCtxWindow [] "ns".data none).2 "ns".data = true ∧
    (getCtxWindow [] "ns".data none).1 =
      createContextWindowWithoutIngestion "ns".data none :=
  ⟨(registry_get_or_connect [] "ns".data none).1,
   (registry_get_or_connect [] "ns".data none).2.1 (by decide)⟩

/-- The SHA-1 implementation matches the standard test vector for `abc`. -/
theorem stableHash_test_vector_abc :
    stableHash "abc".data = "a9993e364706816aba3e25717850c26c9cd0d89d".data := by
  decide

/-- The SHA-1 implementation matches the standard test vector for the
empty message. -/
theorem stableHash_test_vector_empty :
    stableHash [] = "da39a3ee5e6b4b0d3255bfef95601890afd80709".data := by
  decide

/-! ## Claim theorems: ingestion -/

/-- **C5.** A failing embedding batch aborts the whole `ingestPaths` call
with a surfaced error, and the vector-store upsert collaborator is never
invoked for that call. -/
theorem ingest_embed_failure_no_upsert {V : Type} (w : IngestWorld V)
    (inputs : List Str) (ns : Str) (chunkSize chunkOverlap : Nat)
    (btr : List (PipelineEffect V)) (recs : List (VectorRecord V))
    (hbuild : buildRecords w chunkSize chunkOverlap (w.collectFiles inputs) =
      some (btr, recs))
    (hfail : ∃ b ∈ chunksOf 100 recs,
      ∃ e, w.embed (b.map fun r => r.metadata.text) = .error e) :
    ∃ tr e2, ingestPathsRun w inputs ns chunkSize chunkOverlap =
        some (tr, .error e2) ∧
      ∀ eff ∈ tr, eff.isUpsert = false := by
  have hrecs : recs ≠ [] := by
    rintro rfl
    rcases hfail with ⟨b, hb, -⟩
    simp [chunksOf, chunksOfFuel] at hb
  have hfiles : ¬ (w.collectFiles inputs).length = 0 := by
    intro h0
    rw [List.eq_nil_of_length_eq_zero h0] at hbuild
    simp only [buildRecords, Option.some.injEq, Prod.mk.injEq] at hbuild
    exact hrecs hbuild.2.symm
  have hlen : ¬ recs.length = 0 := fun h0 => hrecs (List.eq_nil_of_length_eq_zero h0)
  obtain ⟨e2, he2⟩ := embedBatches_fail w.embed (chunksOf 100 recs) hfail
  rcases hEB : embedBatches w.embed (chunksOf 100 recs) with ⟨etr, eres⟩
  rw [hEB] at he2
  obtain rfl : eres = .error e2 := he2
  refine ⟨btr ++ etr, e2, ?_, ?_⟩
  · simp only [ingestPathsRun]
    rw [if_neg hfiles, hbuild]
    simp only
    rw [if_neg hlen, hEB]
  · intro eff heff
    rcases List.mem_append.mp heff with hm | hm
    · exact buildRecords_no_upsert w chunkSize chunkOverlap _ btr recs hbuild eff hm
    · exact embedBatches_no_upsert w.embed (chunksOf 100 recs) eff (by rw [hEB]; exact hm)

theorem ingest_upsert_ids {V : Type} (w : IngestWorld V)
    (inputs : List Str) (ns : Str) (cs co : Nat)
    (btr : List (PipelineEffect V)) (recs : List (VectorRecord V))
    (tr : List (PipelineEffect V)) (res : Except Str Unit)
    (urecs : List (VectorRecord V)) (uns : Str)
    (hbuild : buildRecords w cs co (w.collectFiles inputs) = some (btr, recs))
    (hrun : ingestPathsRun w inputs ns cs co = some (tr, res))
    (hups : PipelineEffect.upsertCall urecs uns ∈ tr) :
    urecs.map (fun r => r.id) = recs.map (fun r => r.id) := by
  simp only [ingestPathsRun] at hrun
  by_cases hfiles : (w.collectFiles inputs).length = 0
  · rw [if_pos hfiles] at hrun
    simp only [Option.some.injEq, Prod.mk.injEq] at hrun
    rw [← hrun.1] at hups
    simp at hups
  · rw [if_neg hfiles, hbuild] at hrun
    simp only at hrun
    by_cases hlen : recs.length = 0
    · rw [if_pos hlen] at hrun
      simp only [Option.some.injEq, Prod.mk.injEq] at hrun
      have := buildRecords_no_upsert w cs co _ btr recs hbuild
        (.upsertCall urecs uns) (hrun.1 ▸ hups)
      simp [PipelineEffect.isUpsert] at this
    · rw [if_neg hlen] at hrun
      rcases hEB : embedBatches w.embed (chunksOf 100 recs) with ⟨etr, eres⟩
      rw [hEB] at hrun
      have hbtr := buildRecords_no_upsert w cs co _ btr recs hbuild
      have hetr : ∀ eff ∈ etr, PipelineEffect.isUpsert eff = false := by
        intro eff hm
        exact embedBatches_no_upsert w.embed (chunksOf 100 recs) eff (by rw [hEB]; exact hm)
      rcases eres with e | embedded
      · simp only [Option.some.injEq, Prod.mk.injEq] at hrun
        rcases List.mem_append.mp (hrun.1 ▸ hups) with hm | hm
        · exact absurd (hbtr _ hm) (by simp [PipelineEffect.isUpsert])
        · exact absurd (hetr _ hm) (by simp [PipelineEffect.isUpsert])
      · have hself : PipelineEffect.upsertCall urecs uns ∈
            btr ++ etr ++ [PipelineEffect.upsertCall embedded ns] → urecs = embedded := by
          intro hm
          rcases List.mem_append.mp hm with hm2 | hm2
          · rcases List.mem_append.mp hm2 with hm3 | hm3
            · exact absurd (hbtr _ hm3) (by simp [PipelineEffect.isUpsert])
            · exact absurd (hetr _ hm3) (by simp [PipelineEffect.isUpsert])
          · simp only [List.mem_singleton] at hm2
            exact (PipelineEffect.upsertCall.inj hm2).1
        have hrun2 : (match w.upsert embedded ns with
            | .error e => some (btr ++ etr ++ [PipelineEffect.upsertCall embedded ns],
                (Except.error e : Except Str Unit))
            | .ok _ => some (btr ++ etr ++ [PipelineEffect.upsertCall embedded ns],
                (Except.ok () : Except Str Unit))) = some (tr, res) := hrun
        have hemb_eq : urecs = embedded := by
          rcases hup : w.upsert embedded ns with e | u <;> rw [hup] at hrun2 <;>
            simp only [Option.some.injEq, Prod.mk.injEq] at hrun2 <;>
            exact hself (hrun2.1 ▸ hups)
        subst hemb_eq
        rw [embedBatches_ok_ids w.embed (chunksOf 100 recs) etr urecs hEB,
          chunksOf_flatten 100 (by omega) recs]

/-- A world whose embedding collaborator always fails, for the C5 witness. -/
def failingEmbedWorld : IngestWorld Nat :=
  { collectFiles := fun _ => ["a.txt".data]
    readAsText := fun _ => .ok "hello".data
    embed := fun _ => .error "boom".data
    upsert := fun _ _ => .ok () }

theorem ingest_embed_failure_no_upsert_witness :
    ∃ tr e2, ingestPathsRun failingEmbedWorld ["in".data] "ns".data 10 2 =
        some (tr, .error e2) ∧
      ∀ eff ∈ tr, eff.isUpsert = false :=
  ingest_embed_failure_no_upsert failingEmbedWorld ["in".data] "ns".data 10 2
    [.extractCall "a.txt".data] (fileRecords Nat "a.txt".data ["hello".data])
    (by decide)
    ⟨fileRecords Nat "a.txt".data ["hello".data], by decide, "boom".data, by decide⟩

/-- **C6.** The record id assigned during ingestion is the 40-character
lowercase-hex SHA-1 digest of the concatenation of the file path, the
chunk's 0-based decimal index and the whitespace-collapsed first-64-character
prefix of the chunk text; the id sequence handed to the upsert collaborator
is exactly the ids of the built records, and because the computation is
deterministic (no salt, no timestamp), two ingestion runs over the same
unchanged inputs hand the upsert collaborator identical id sequences. -/
theorem ingest_ids_sha1_idempotent {V : Type} (w : IngestWorld V)
    (inputs : List Str) (ns : Str) (cs co : Nat)
    (btr tr tr2 : List (PipelineEffect V)) (recs urecs urecs2 : List (VectorRecord V))
    (res res2 : Except Str Unit) (uns uns2 : Str)
    (hbuild : buildRecords w cs co (w.collectFiles inputs) = some (btr, recs))
    (hrun : ingestPathsRun w inputs ns cs co = some (tr, res))
    (hups : PipelineEffect.upsertCall urecs uns ∈ tr)
    (hrun2 : ingestPathsRun w inputs ns cs co = some (tr2, res2))
    (hups2 : PipelineEffect.upsertCall urecs2 uns2 ∈ tr2) :
    urecs.map (fun r => r.id) = recs.map (fun r => r.id) ∧
    urecs2.map (fun r => r.id) = urecs.map (fun r => r.id) ∧
    ∀ (fp : Str) (i : Nat) (c : Str),
      recordId fp i c =
        stableHash (fp ++ '#' :: natDecimal i ++ ':' :: collapseWs (c.take 64)) ∧
      (recordId fp i c).length = 40 ∧
      ∀ ch ∈ recordId fp i c, ch ∈ hexDigits := by
  have h1 := ingest_upsert_ids w inputs ns cs co btr recs tr res urecs uns
    hbuild hrun hups
  have h2 := ingest_upsert_ids w inputs ns cs co btr recs tr2 res2 urecs2 uns2
    hbuild hrun2 hups2
  exact ⟨h1, h2.trans h1.symm, fun fp i c =>
    ⟨rfl, stableHash_length _, stableHash_mem_hex _⟩⟩

/-- A world that ingests one small file successfully, for the C6 witness. -/
def okIngestWorld : IngestWorld Nat :=
  { collectFiles := fun _ => ["a.txt".data]
    readAsText := fun _ => .ok "hello".data
    embed := fun texts => .ok (texts.map fun _ => 7)
    upsert := fun _ _ => .ok () }

/-- The single record `okIngestWorld` upserts. -/
def okIngestRecord : VectorRecord Nat :=
  { id := recordId "a.txt".data 0 "hello".data
    values := some 7
    metadata := { text := "hello".data, source := "a.txt".data } }

theorem ingest_ids_sha1_idempotent_witness :
    [okIngestRecord].map (fun r => r.id) =
      (fileRecords Nat "a.txt".data ["hello".data]).map (fun r => r.id) :=
  (ingest_ids_sha1_idempotent okIngestWorld ["in".data] "ns".data 10 2
    [.extractCall "a.txt".data]
    [.extractCall "a.txt".data, .embedCall ["hello".data],
      .upsertCall [okIngestRecord] "ns".data]
    [.extractCall "a.txt".data, .embedCall ["hello".data],
      .upsertCall [okIngestRecord] "ns".data]
    (fileRecords Nat "a.txt".data ["hello".data])
    [okIngestRecord] [okIngestRecord] (.ok ()) (.ok ()) "ns".data "ns".data
    (by decide) (by decide) (by decide) (by decide) (by decide)).1
